import Mathlib

/-!
Verification of the `soundgen` waveform library (`src/soundgen.py`).

The embedding models numpy arrays of samples as `List ℚ` (or `List ℝ` where
the source applies `np.sin`), Python floats as exact rationals, Python's
built-in `round` as round-half-to-even, and fallible code as `Option`/`Except`
values: a `none`/`.error` result marks the input on which the Python code
raises.
-/

attribute [local semireducible] Rat.mul Rat.add Rat.sub Rat.inv

namespace Soundgen

/-- Python's built-in `round` on a real number: round half to even. -/
def pyRound (q : ℚ) : ℤ :=
  if Int.fract q < 1/2 then Int.floor q
  else if 1/2 < Int.fract q then Int.floor q + 1
  else if 2 ∣ Int.floor q then Int.floor q else Int.floor q + 1

/-- `np.arange(stop)`: the integers `0, 1, ..., ⌈stop⌉ - 1` as rationals. -/
def npArange (stop : ℚ) : List ℚ :=
  (List.range (Int.ceil stop).toNat).map (fun i : ℕ => (i : ℚ))

/-- `np.linspace(start, stop, num)` for a non-negative count `num`:
`num` evenly spaced values from `start` to `stop` inclusive. -/
def rampList (start stop : ℚ) (num : ℕ) : List ℚ :=
  (List.range num).map (fun i : ℕ =>
    if num = 1 then start else start + (stop - start) * (i : ℚ) / ((num : ℚ) - 1))

/-- `DEFAULT_SAMPLE_RATE = 48000` (module constant of `soundgen.py`). -/
def DEFAULT_SAMPLE_RATE : ℚ := 48000

/-- `_sample_count_array(length, sample_rate, extra_samples)`:
`np.arange(sample_rate * length + extra_samples)`. -/
def sampleCountArray (length sample_rate : ℚ) (extra_samples : ℤ) : List ℚ :=
  npArange (sample_rate * length + (extra_samples : ℚ))

/-- `_adjust_range(input_values, original_range, new_range)`: each sample `x`
maps to `x * stretch_factor - offset`. -/
def adjustRange (input_values : List ℚ) (original_range new_range : ℚ × ℚ) : List ℚ :=
  let stretch_factor := (new_range.2 - new_range.1) / (original_range.2 - original_range.1)
  let offset := original_range.1 - new_range.1
  input_values.map (fun x => x * stretch_factor - offset)

/-- `_overshoot_for_phase_shift(frequency, sample_rate, phase)`:
`round(phase * sample_rate / frequency)`. -/
def overshootForPhaseShift (frequency sample_rate phase : ℚ) : ℤ :=
  pyRound (phase * sample_rate / frequency)

/-- `_shift_phase(wave, extra_samples)`: the Python slice `wave[extra_samples:]`
(for a negative count Python slices from `len - |extra|`, clamped at 0). -/
def shiftPhase {α : Type} (wave : List α) (extra_samples : ℤ) : List α :=
  if 0 ≤ extra_samples then wave.drop extra_samples.toNat
  else wave.drop (wave.length - (-extra_samples).toNat)

/-- The four segment sample counts and the effective sustain anchor level
computed by `adsr` before it materialises the envelope. -/
structure ADSRParams where
  attackSamples : ℤ
  decaySamples : ℤ
  sustainSamples : ℤ
  releaseSamples : ℤ
  sustainLevel : ℚ
  deriving DecidableEq

/-- The arithmetic part of `adsr` (`soundgen.py` lines 243-258), kept in source
order.  Returns `none` exactly when Python raises: `short_decay / decay` with
`decay == 0` is a `ZeroDivisionError`.  Fields of the result are the four
`round(duration * sample_rate)` counts and the interpolated sustain level. -/
def adsrParams (attack decay sustain release press_time sample_rate : ℚ) :
    Option ADSRParams :=
  let sustain1 : ℚ := if attack > press_time then 1 else sustain
  if decay = 0 then none
  else
    let short_decay := max 0 (min decay (press_time - attack))
    let decayFrac := short_decay / decay
    let sustain2 := (1 - decayFrac) + decayFrac * sustain1
    let decay2 := short_decay
    let remaining_time := max 0 (press_time - attack - decay2)
    let release2 := if decayFrac < 1 then release - decay2 else release
    some ⟨pyRound (attack * sample_rate),
          pyRound (decay2 * sample_rate),
          pyRound (remaining_time * sample_rate),
          pyRound (release2 * sample_rate),
          sustain2⟩

/-- The envelope-materialisation part of `adsr` (`soundgen.py` lines 260-265):
`np.linspace`/`np.full` raise `ValueError` on a negative count (modelled as
`none`); otherwise the four segments are concatenated. -/
def adsrOfParams (p : ADSRParams) : Option (List ℚ) :=
  if p.attackSamples < 0 then none
  else if p.decaySamples < 0 then none
  else if p.sustainSamples < 0 then none
  else if p.releaseSamples < 0 then none
  else some (rampList 0 1 p.attackSamples.toNat ++
             rampList 1 p.sustainLevel p.decaySamples.toNat ++
             List.replicate p.sustainSamples.toNat p.sustainLevel ++
             rampList p.sustainLevel 0 p.releaseSamples.toNat)

/-- `adsr(attack, decay, sustain, release, press_time, sample_rate)`. -/
def adsr (attack decay sustain release press_time sample_rate : ℚ) :
    Option (List ℚ) :=
  (adsrParams attack decay sustain release press_time sample_rate).bind adsrOfParams

/-- A Python value passed as `positive_slope`: `None`, a `bool`, or any other
object modelled by its truthiness (represented here by an `int`). -/
inductive PyVal where
  | pyNone : PyVal
  | pyBool : Bool → PyVal
  | pyInt : ℤ → PyVal
  deriving DecidableEq

/-- The Python test `positive_slope is None`. -/
def PyVal.isNone : PyVal → Bool
  | .pyNone => true
  | _ => false

/-- Python truthiness of the value (`bool(x)`). -/
def PyVal.truthy : PyVal → Bool
  | .pyNone => false
  | .pyBool b => b
  | .pyInt n => n != 0

/-- The failures `find_nearest_zero_crossing` can raise: the
`ValueError("positive_slope must be boolean or None")` arm, and the
`ValueError` that `np.argmin` raises on an empty sequence. -/
inductive FnzcError where
  | invalidSlope : FnzcError
  | emptyArgmin : FnzcError
  deriving DecidableEq

/-- `np.sign` of a sample. -/
def sign (x : ℚ) : ℤ := if 0 < x then 1 else if x < 0 then -1 else 0

/-- `np.diff`: differences of consecutive elements. -/
def listDiff (l : List ℤ) : List ℤ := List.zipWith (fun a b => b - a) l l.tail

/-- Helper for `whereIdx`: `n` is the index of the head of the remaining list. -/
def whereIdxAux (p : ℤ → Bool) : ℕ → List ℤ → List ℕ
  | _, [] => []
  | n, d :: ds => if p d then n :: whereIdxAux p (n + 1) ds else whereIdxAux p (n + 1) ds

/-- `np.where(cond)[0]` over a vector: the indices at which the condition
holds, in increasing order. -/
def whereIdx (p : ℤ → Bool) (l : List ℤ) : List ℕ := whereIdxAux p 0 l

/-- Lines 288-296 of `soundgen.py`: the slope-filter dispatch over the sign
differences.  Python tests `positive_slope is None`, then its truthiness, then
its falsiness, so the final `raise ValueError` arm is syntactically present but
unreachable. -/
def rawCrossings (differences : List ℤ) (positive_slope : PyVal) :
    Except FnzcError (List ℕ) :=
  if positive_slope.isNone then
    .ok (whereIdx (fun d => decide (0 < d.natAbs)) differences)
  else if positive_slope.truthy then
    .ok (whereIdx (fun d => decide (0 < d)) differences)
  else if !positive_slope.truthy then
    .ok (whereIdx (fun d => decide (d < 0)) differences)
  else .error .invalidSlope

/-- Lines 298-301 of `soundgen.py`: where one of two samples at a crossing is
exactly zero, drop the adjacent non-zero index the raw sign-difference test
also reported (`sampled_zero_indices` / `bad_indices` / `np.setdiff1d`). -/
def dedupCrossings (array : List ℚ) (differences : List ℤ) (crossings : List ℕ) :
    List ℕ :=
  let sampled_zero_indices := crossings.filter (fun k => (differences.getD k 0).natAbs == 1)
  let bad_indices := sampled_zero_indices.filter (fun k => !(array.getD k 0 == 0))
  crossings.filter (fun k => !(bad_indices.elem k))

/-- The crossing candidate set of `find_nearest_zero_crossing` after slope
filtering and zero-sample deduplication. -/
def validCrossings (array : List ℚ) (positive_slope : PyVal) :
    Except FnzcError (List ℕ) :=
  let signs := array.map sign
  let differences := listDiff signs
  (rawCrossings differences positive_slope).map (dedupCrossings array differences)

/-- `np.argmin`: index of the first minimum; `np.argmin` of an empty sequence
raises, modelled as `none`. -/
def argminIdx : List ℕ → Option ℕ
  | [] => none
  | x :: xs =>
    match argminIdx xs with
    | none => some 0
    | some j => if x ≤ xs.getD j 0 then some 0 else some (j + 1)

/-- `find_nearest_zero_crossing(array, i, positive_slope)`. -/
def find_nearest_zero_crossing (array : List ℚ) (i : ℤ) (positive_slope : PyVal) :
    Except FnzcError ℤ :=
  match validCrossings array positive_slope with
  | .error e => .error e
  | .ok crossings =>
    let crossing_distance := crossings.map (fun k : ℕ => ((k : ℤ) - i).natAbs)
    match argminIdx crossing_distance with
    | none => .error .emptyArgmin
    | some result_index => .ok ((crossings.getD result_index 0 : ℕ) : ℤ)

/-- Fancy assignment `l[idxs] = v` on a numpy vector. -/
def setIndices (l : List ℚ) (idxs : List ℕ) (v : ℚ) : List ℚ :=
  idxs.foldl (fun acc k => acc.set k v) l

/-- The §8 / `test_fnzc.py` buffer: 1000 ones with zeros and minus-ones poked
in at fixed indices. -/
def fnzcTestBuf : List ℚ :=
  setIndices (setIndices (List.replicate 1000 1)
    [87, 173, 211, 304, 468, 823, 900, 902] 0)
    [143, 257, 366, 411, 640, 781, 901, 951] (-1)

/-- `sine_wave(frequency, amplitude, length, sample_rate, phase)`
(`soundgen.py` lines 37-58): real-valued samples
`sin(n * frequency * 2π / sample_rate) * amplitude`, with the first
`overshoot` raw samples trimmed.  The final `astype(np.float32)` narrowing is
not modelled. -/
noncomputable def sineWave (frequency amplitude length sample_rate phase : ℚ) :
    List ℝ :=
  let extra_samples := overshootForPhaseShift frequency sample_rate phase
  let sine_array := (sampleCountArray length sample_rate extra_samples).map
    (fun n : ℚ =>
      Real.sin ((n : ℝ) * (frequency : ℝ) * (2 * Real.pi) / (sample_rate : ℝ))
        * (amplitude : ℝ))
  shiftPhase sine_array extra_samples

/-- `_sawtooth_basic(frequency, length, sample_rate, extra_samples)`
(`soundgen.py` lines 60-70).  The body divides by the module constant
`DEFAULT_SAMPLE_RATE`, not by the `sample_rate` argument (line 68), and the
wrap is `x - floor_divide(x, 1)`. -/
def sawtoothBasic (frequency length sample_rate : ℚ) (extra_samples : ℤ) : List ℚ :=
  (sampleCountArray length sample_rate extra_samples).map
    (fun n : ℚ => n * frequency / DEFAULT_SAMPLE_RATE
      - (Int.floor (n * frequency / DEFAULT_SAMPLE_RATE) : ℚ))

/-- `sawtooth_wave(...)` (`soundgen.py` lines 111-134).  Line 131 passes
`(frequency, sample_rate, length, extra_samples)` positionally into
`_sawtooth_basic(frequency, length, sample_rate, extra_samples)`, swapping
`length` and `sample_rate`; the swap is reproduced here. -/
def sawtooth_wave (frequency amplitude length sample_rate phase : ℚ) : List ℚ :=
  let phase2 := Int.fract (phase + 1/2)
  let extra_samples := overshootForPhaseShift frequency sample_rate phase2
  let sawtooth_array := sawtoothBasic frequency sample_rate length extra_samples
  let sawtooth_array2 := adjustRange sawtooth_array (0, 1) (-amplitude, amplitude)
  shiftPhase sawtooth_array2 extra_samples

/-- `_pulse_basic` (`soundgen.py` lines 72-83); line 81 also swaps `length`
and `sample_rate` when calling `_sawtooth_basic`.  The clipper sends
`x >= duty_cycle` to 0 and everything else to 1. -/
def pulseBasic (frequency length sample_rate duty_cycle : ℚ) (extra_samples : ℤ) :
    List ℚ :=
  (sawtoothBasic frequency sample_rate length extra_samples).map
    (fun x => if duty_cycle ≤ x then 0 else 1)

/-- `pulse_wave(...)` (`soundgen.py` lines 85-109). -/
def pulse_wave (frequency amplitude length sample_rate phase duty_cycle : ℚ) :
    List ℚ :=
  let extra_samples := overshootForPhaseShift frequency sample_rate phase
  let pulse_array := pulseBasic frequency length sample_rate duty_cycle extra_samples
  let pulse_array2 := adjustRange pulse_array (0, 1) (-amplitude, amplitude)
  shiftPhase pulse_array2 extra_samples

/-- `triangle_wave(...)` (`soundgen.py` lines 136-160): absolute value of the
sawtooth at phase `(phase + 0.25) % 1`, rescaled from `(0, amplitude)` to
`(-amplitude, amplitude)`. -/
def triangle_wave (frequency amplitude length sample_rate phase : ℚ) : List ℚ :=
  let phase2 := Int.fract (phase + 1/4)
  let triangle_array :=
    (sawtooth_wave frequency amplitude length sample_rate phase2).map (fun x => |x|)
  adjustRange triangle_array (0, amplitude) (-amplitude, amplitude)

end Soundgen

namespace Soundgen

theorem rampList_length (start stop : ℚ) (num : ℕ) :
    (rampList start stop num).length = num := by
  rw [rampList, List.length_map, List.length_range]

theorem whereIdxAux_mem (p : ℤ → Bool) (l : List ℤ) :
    ∀ n k, k ∈ whereIdxAux p n l ↔
      ∃ m, m < l.length ∧ k = n + m ∧ p (l.getD m 0) = true := by
  induction l with
  | nil => intro n k; simp [whereIdxAux]
  | cons d ds ih =>
    intro n k
    constructor
    · intro hk
      by_cases hd : p d
      · rw [whereIdxAux, if_pos hd] at hk
        rcases List.mem_cons.mp hk with rfl | hk'
        · exact ⟨0, by simp, by simp, by simpa using hd⟩
        · rcases (ih (n + 1) k).mp hk' with ⟨m, hm, rfl, hp⟩
          exact ⟨m + 1, by simpa using hm, by omega, by simpa using hp⟩
      · rw [whereIdxAux, if_neg hd] at hk
        rcases (ih (n + 1) k).mp hk with ⟨m, hm, rfl, hp⟩
        exact ⟨m + 1, by simpa using hm, by omega, by simpa using hp⟩
    · rintro ⟨m, hm, rfl, hp⟩
      cases m with
      | zero =>
        rw [whereIdxAux, if_pos (by simpa using hp)]
        simp
      | succ m' =>
        have hmem : n + 1 + m' ∈ whereIdxAux p (n + 1) ds :=
          (ih (n + 1) _).mpr ⟨m', by simpa using hm, rfl, by simpa using hp⟩
        have heq : n + (m' + 1) = n + 1 + m' := by omega
        rw [whereIdxAux]
        by_cases hd : p d
        · rw [if_pos hd]; exact List.mem_cons.mpr (Or.inr (heq ▸ hmem))
        · rw [if_neg hd]; exact heq ▸ hmem

theorem whereIdx_mem (p : ℤ → Bool) (l : List ℤ) (k : ℕ) :
    k ∈ whereIdx p l ↔ k < l.length ∧ p (l.getD k 0) = true := by
  rw [whereIdx, whereIdxAux_mem]
  constructor
  · rintro ⟨m, hm, rfl, hp⟩
    rw [Nat.zero_add]
    exact ⟨hm, hp⟩
  · rintro ⟨hk, hp⟩
    exact ⟨k, hk, by omega, hp⟩

theorem whereIdxAux_le (p : ℤ → Bool) (l : List ℤ) (n : ℕ) :
    ∀ k ∈ whereIdxAux p n l, n ≤ k := by
  intro k hk
  rcases (whereIdxAux_mem p l n k).mp hk with ⟨m, _, rfl, _⟩
  exact Nat.le_add_right n m

theorem whereIdxAux_pairwise (p : ℤ → Bool) (l : List ℤ) :
    ∀ n, List.Pairwise (· < ·) (whereIdxAux p n l) := by
  induction l with
  | nil => intro n; simp [whereIdxAux]
  | cons d ds ih =>
    intro n
    rw [whereIdxAux]
    by_cases hd : p d
    · rw [if_pos hd]
      exact List.Pairwise.cons
        (fun k hk => lt_of_lt_of_le (Nat.lt_succ_self n) (whereIdxAux_le p ds (n + 1) k hk))
        (ih (n + 1))
    · rw [if_neg hd]; exact ih (n + 1)

theorem whereIdx_pairwise (p : ℤ → Bool) (l : List ℤ) :
    List.Pairwise (· < ·) (whereIdx p l) :=
  whereIdxAux_pairwise p l 0

theorem argminIdx_eq_none (l : List ℕ) : argminIdx l = none ↔ l = [] := by
  cases l with
  | nil => simp [argminIdx]
  | cons x xs =>
    rcases hx : argminIdx xs with _ | j
    · simp [argminIdx, hx]
    · by_cases h : x ≤ xs.getD j 0
      · simp only [argminIdx, hx]
        rw [if_pos h]; simp
      · simp only [argminIdx, hx]
        rw [if_neg h]; simp

theorem argminIdx_spec (l : List ℕ) (hl : l ≠ []) :
    ∃ j, argminIdx l = some j ∧ j < l.length ∧
      (∀ m, m < l.length → l.getD j 0 ≤ l.getD m 0) ∧
      (∀ m, m < j → l.getD j 0 < l.getD m 0) := by
  induction l with
  | nil => exact absurd rfl hl
  | cons x xs ih =>
    by_cases hxs : xs = []
    · subst hxs
      refine ⟨0, by simp [argminIdx], by simp, ?_, fun m hm => absurd hm (by omega)⟩
      intro m hm
      have hm0 : m = 0 := by simpa using hm
      subst hm0; exact le_refl _
    · rcases ih hxs with ⟨j, hj, hjlen, hmin, hfirst⟩
      by_cases hle : x ≤ xs.getD j 0
      · refine ⟨0, by simp only [argminIdx, hj]; rw [if_pos hle], by simp, ?_,
          fun m hm => absurd hm (by omega)⟩
        intro m hm
        cases m with
        | zero => exact le_refl _
        | succ m' =>
          rw [List.getD_cons_zero, List.getD_cons_succ]
          exact le_trans hle (hmin m' (by simpa using hm))
      · push_neg at hle
        refine ⟨j + 1, by simp only [argminIdx, hj]; rw [if_neg (not_le.mpr hle)],
          by simpa using hjlen, ?_, ?_⟩
        · intro m hm
          cases m with
          | zero =>
            rw [List.getD_cons_succ, List.getD_cons_zero]
            exact le_of_lt hle
          | succ m' =>
            rw [List.getD_cons_succ, List.getD_cons_succ]
            exact hmin m' (by simpa using hm)
        · intro m hm
          cases m with
          | zero =>
            rw [List.getD_cons_succ, List.getD_cons_zero]
            exact hle
          | succ m' =>
            rw [List.getD_cons_succ, List.getD_cons_succ]
            exact hfirst m' (by omega)

theorem validCrossings_pairwise (array : List ℚ) (s : PyVal) (V : List ℕ)
    (hV : validCrossings array s = .ok V) : List.Pairwise (· < ·) V := by
  rw [validCrossings] at hV
  rcases hr : rawCrossings (listDiff (array.map sign)) s with e | C
  · rw [hr] at hV; cases hV
  · rw [hr] at hV
    have hC : List.Pairwise (· < ·) C := by
      rw [rawCrossings] at hr
      split at hr
      · cases hr; exact whereIdx_pairwise _ _
      · split at hr
        · cases hr; exact whereIdx_pairwise _ _
        · split at hr
          · cases hr; exact whereIdx_pairwise _ _
          · cases hr
    have : V = dedupCrossings array (listDiff (array.map sign)) C := by
      simp only [Except.map] at hV
      exact (by simpa using hV : dedupCrossings array (listDiff (array.map sign)) C = V).symm
    rw [this, dedupCrossings]
    exact hC.filter _

theorem rawCrossings_ok (differences : List ℤ) (s : PyVal) :
    ∃ C, rawCrossings differences s = .ok C := by
  rw [rawCrossings]
  by_cases h1 : s.isNone
  · rw [if_pos h1]; exact ⟨_, rfl⟩
  · rw [if_neg h1]
    by_cases h2 : s.truthy
    · rw [if_pos h2]; exact ⟨_, rfl⟩
    · rw [if_neg h2, if_pos (by simp [h2])]; exact ⟨_, rfl⟩

theorem listDiff_length (l : List ℤ) : (listDiff l).length = l.length - 1 := by
  rw [listDiff, List.length_zipWith, List.length_tail]
  omega

theorem listDiff_getD (l : List ℤ) (j : ℕ) (h : j + 1 < l.length) :
    (listDiff l).getD j 0 = l.getD (j + 1) 0 - l.getD j 0 := by
  have h1 : j < (listDiff l).length := by rw [listDiff_length]; omega
  rw [List.getD_eq_getElem _ _ h1, List.getD_eq_getElem _ _ h,
      List.getD_eq_getElem _ _ (by omega : j < l.length)]
  simp only [listDiff, List.getElem_zipWith, List.getElem_tail]

theorem signs_getD (a : List ℚ) (j : ℕ) (h : j < a.length) :
    (a.map sign).getD j 0 = sign (a.getD j 0) := by
  rw [List.getD_eq_getElem _ _ (by simpa using h), List.getD_eq_getElem _ _ h,
      List.getElem_map]

theorem sign_natAbs_of_ne (x : ℚ) (h : x ≠ 0) : (sign x).natAbs = 1 := by
  rw [sign]
  by_cases h1 : 0 < x
  · rw [if_pos h1]; rfl
  · rw [if_neg h1, if_pos (lt_of_le_of_ne (le_of_not_lt h1) h)]; rfl

theorem sign_zero : sign 0 = 0 := rfl

theorem adsrParams_example :
    adsrParams 1 1 (1/2) 2 (11/10) 400 = some ⟨400, 40, 0, 760, 19/20⟩ := by
  decide

/-- C1 (counterexample): at `attack=1, decay=1, sustain=0.5, release=2,
press_time=1.1, sample_rate=400` the decay is truncated
(`effective_decay = 0.1 < 1`), yet the release segment has 760 samples, not
the full nominal `round(release * sample_rate) = 800`: the code subtracts the
consumed decay time from the release duration. -/
theorem adsr_release_full_duration_false :
    (adsrParams 1 1 (1/2) 2 (11/10) 400).map ADSRParams.releaseSamples = some 760 ∧
    max 0 (min 1 ((11:ℚ)/10 - 1)) < 1 ∧
    pyRound ((2:ℚ) * 400) = 800 := by
  decide

/-- C1 (amended): for `decay > 0`, with `effective_decay =
clamp(decay, 0, press_time - attack)`: the release ramp always starts from the
interpolated sustain level, but when the decay is truncated
(`effective_decay < decay`) the release sample count is
`round((release - effective_decay) * sample_rate)` — the nominal release
shortened by the consumed decay time — while when the decay is fully consumed
(`effective_decay = decay`) it is the nominal `round(release * sample_rate)`. -/
theorem adsr_release_shortened_by_consumed_decay
    (attack decay sustain release press_time sample_rate : ℚ) (hd : 0 < decay) :
    ∃ p, adsrParams attack decay sustain release press_time sample_rate = some p ∧
      p.sustainLevel = (1 - max 0 (min decay (press_time - attack)) / decay)
        + max 0 (min decay (press_time - attack)) / decay *
          (if attack > press_time then 1 else sustain) ∧
      (max 0 (min decay (press_time - attack)) < decay →
        p.releaseSamples
          = pyRound ((release - max 0 (min decay (press_time - attack))) * sample_rate)) ∧
      (max 0 (min decay (press_time - attack)) = decay →
        p.releaseSamples = pyRound (release * sample_rate)) := by
  have hne : decay ≠ 0 := ne_of_gt hd
  refine ⟨⟨pyRound (attack * sample_rate),
      pyRound (max 0 (min decay (press_time - attack)) * sample_rate),
      pyRound (max 0 (press_time - attack - max 0 (min decay (press_time - attack)))
        * sample_rate),
      pyRound ((if max 0 (min decay (press_time - attack)) / decay < 1
          then release - max 0 (min decay (press_time - attack)) else release)
        * sample_rate),
      (1 - max 0 (min decay (press_time - attack)) / decay)
        + max 0 (min decay (press_time - attack)) / decay *
          (if attack > press_time then 1 else sustain)⟩, ?_, rfl, ?_, ?_⟩
  · simp only [adsrParams, if_neg hne]
  · intro h
    rw [if_pos ((div_lt_one hd).mpr h)]
  · intro h
    rw [if_neg (by rw [h, div_self hne]; exact lt_irrefl 1)]

/-- C1 (witness): the amended statement instantiated at the §8 overlap test
inputs. -/
theorem adsr_release_shortened_witness :
    (0:ℚ) < 1 ∧
    (∃ p, adsrParams 1 1 (1/2) 2 (11/10) 400 = some p ∧
      p.sustainLevel = (1 - max 0 (min 1 ((11:ℚ)/10 - 1)) / 1)
        + max 0 (min 1 ((11:ℚ)/10 - 1)) / 1 *
          (if (1:ℚ) > 11/10 then 1 else 1/2) ∧
      (max 0 (min 1 ((11:ℚ)/10 - 1)) < 1 →
        p.releaseSamples = pyRound ((2 - max 0 (min 1 ((11:ℚ)/10 - 1))) * 400)) ∧
      (max 0 (min 1 ((11:ℚ)/10 - 1)) = 1 →
        p.releaseSamples = pyRound ((2:ℚ) * 400))) :=
  ⟨by norm_num,
   adsr_release_shortened_by_consumed_decay 1 1 (1/2) 2 (11/10) 400 (by norm_num)⟩

/-- C2: `adsr(1, 1, 0.5, 2, 1.1, 400)` is exactly a 400-sample ramp 0→1, a
40-sample ramp 1→0.95, and a 760-sample ramp 0.95→0, 1200 samples total. -/
theorem adsr_decay_release_overlap_example :
    adsr 1 1 (1/2) 2 (11/10) 400
      = some (rampList 0 1 400 ++ rampList 1 (19/20) 40 ++ rampList (19/20) 0 760) ∧
    (adsr 1 1 (1/2) 2 (11/10) 400).map List.length = some 1200 := by
  have h : adsr 1 1 (1/2) 2 (11/10) 400
      = some (rampList 0 1 400 ++ rampList 1 (19/20) 40 ++ rampList (19/20) 0 760) := by
    rw [adsr, adsrParams_example]
    simp [adsrOfParams]
  refine ⟨h, ?_⟩
  rw [h]
  simp [rampList_length]

/-- C3 (code_bug): two inputs inside the documented domain on which `adsr`
fails instead of returning an envelope.  With `decay = 0` the line
`decay_ratio = short_decay / decay` raises `ZeroDivisionError`; with
`attack=0, decay=10, release=1, press_time=5` the computed release count is
`round((1 - 5) * 400) = -1600 < 0` and `np.linspace` raises `ValueError`. -/
theorem adsr_domain_failures :
    adsr 1 0 (1/2) 1 (1/2) 400 = none ∧
    adsr 0 10 (1/2) 1 5 400 = none ∧
    (adsrParams 0 10 (1/2) 1 5 400).map ADSRParams.releaseSamples = some (-1600) := by
  decide

/-- C10: mapping a buffer with source interval `(lo, hi)` equal to the
destination interval returns the buffer unchanged: the stretch factor is 1 and
the offset 0. -/
theorem adjust_range_identity (buf : List ℚ) (lo hi : ℚ) (h : hi ≠ lo) :
    adjustRange buf (lo, hi) (lo, hi) = buf := by
  have hne : hi - lo ≠ 0 := sub_ne_zero.mpr h
  simp [adjustRange, div_self hne]

/-- C10 (witness): the identity mapping on a concrete two-sample buffer. -/
theorem adjust_range_identity_witness :
    (1:ℚ) ≠ 0 ∧ adjustRange [3, 1/2] (0, 1) (0, 1) = [3, 1/2] :=
  ⟨by norm_num, adjust_range_identity [3, 1/2] 0 1 (by norm_num)⟩

/-- C6 (code_bug): a slope-filter argument that is neither True, False nor
None does not raise.  The elif chain tests truthiness, so every value reaches
one of the three filter branches and the `raise ValueError` arm is
unreachable: the truthy integer 2 selects the ascending branch and a crossing
index is returned; the falsy integer 0 selects the descending branch (here
failing later, on the empty candidate set, not with the invalid-argument
error). -/
theorem fnzc_invalid_slope_not_raised :
    find_nearest_zero_crossing [-1, 1] 0 (PyVal.pyInt 2) = .ok 0 ∧
    find_nearest_zero_crossing [-1, 1] 0 (PyVal.pyInt 0)
      = .error FnzcError.emptyArgmin ∧
    ∀ (differences : List ℤ) (s : PyVal), ∃ C, rawCrossings differences s = .ok C :=
  ⟨rfl, rfl, rawCrossings_ok⟩

/-- C7 (counterexample): in the buffer [1, 0, 1] the sample at index 1 is
exactly zero with non-zero neighbors, yet under the descending slope filter
the candidate set is empty — the zero is not "exactly one crossing candidate
at index k under every slope-filter setting" — and the locator then fails on
the empty set. -/
theorem fnzc_zero_sample_no_candidate_descending :
    validCrossings [1, 0, 1] (PyVal.pyBool false) = .ok [] ∧
    find_nearest_zero_crossing [1, 0, 1] 1 (PyVal.pyBool false)
      = .error FnzcError.emptyArgmin ∧
    ([1, 0, 1] : List ℚ).getD 1 0 = 0 ∧
    ([1, 0, 1] : List ℚ).getD 0 0 ≠ 0 ∧ ([1, 0, 1] : List ℚ).getD 2 0 ≠ 0 := by
  exact ⟨rfl, rfl, rfl, by decide, by decide⟩

/-- C7 (amended): where sample k is exactly zero and its neighbors are
non-zero, under every slope-filter value the phantom adjacent index k-1 that
the raw sign-difference test may also report is never in the deduplicated
candidate set, and k itself is in the deduplicated set exactly when the
slope-filtered raw test reports k — so the zero contributes at most the single
candidate k, but under a filter not matching the local transition it may
contribute none. -/
theorem fnzc_zero_sample_single_candidate (a : List ℚ) (k : ℕ) (s : PyVal)
    (hk1 : 1 ≤ k) (hk2 : k + 1 < a.length)
    (h0 : a.getD k 0 = 0) (hprev : a.getD (k - 1) 0 ≠ 0)
    (hnext : a.getD (k + 1) 0 ≠ 0) :
    ∃ C V, rawCrossings (listDiff (a.map sign)) s = .ok C ∧
      validCrossings a s = .ok V ∧ (k - 1) ∉ V ∧ (k ∈ V ↔ k ∈ C) := by
  rcases rawCrossings_ok (listDiff (a.map sign)) s with ⟨C, hC⟩
  have hd1 : (listDiff (a.map sign)).getD (k - 1) 0 = -sign (a.getD (k - 1) 0) := by
    have hk : k - 1 + 1 = k := by omega
    rw [listDiff_getD _ _ (by rw [List.length_map]; omega), hk,
        signs_getD _ _ (by omega), signs_getD _ _ (by omega), h0, sign_zero,
        zero_sub]
  refine ⟨C, dedupCrossings a (listDiff (a.map sign)) C, hC,
    by rw [validCrossings, hC]; rfl, ?_, ?_⟩
  · intro hmem
    simp only [dedupCrossings] at hmem
    rcases List.mem_filter.mp hmem with ⟨hmC, hnb⟩
    simp only [List.elem_eq_mem, Bool.not_eq_true', decide_eq_false_iff_not] at hnb
    apply hnb
    refine List.mem_filter.mpr ⟨List.mem_filter.mpr ⟨hmC, ?_⟩, ?_⟩
    · rw [hd1]
      simp only [Int.natAbs_neg, beq_iff_eq]
      exact sign_natAbs_of_ne _ hprev
    · simp only [Bool.not_eq_true', beq_eq_false_iff_ne, ne_eq]
      exact hprev
  · constructor
    · intro hv
      simp only [dedupCrossings] at hv
      exact (List.mem_filter.mp hv).1
    · intro hc
      simp only [dedupCrossings]
      refine List.mem_filter.mpr ⟨hc, ?_⟩
      simp only [List.elem_eq_mem, Bool.not_eq_true', decide_eq_false_iff_not]
      intro hk_bad
      have h4 := (List.mem_filter.mp hk_bad).2
      rw [h0] at h4
      simp at h4

/-- C7 (witness): the amended statement at the buffer [1, 0, -1], zero sample
at index 1, unset slope filter. -/
theorem fnzc_zero_sample_single_candidate_witness :
    (1:ℕ) ≤ 1 ∧ 1 + 1 < ([1, 0, -1] : List ℚ).length ∧
    ([1, 0, -1] : List ℚ).getD 1 0 = 0 ∧ ([1, 0, -1] : List ℚ).getD 0 0 ≠ 0 ∧
    ([1, 0, -1] : List ℚ).getD 2 0 ≠ 0 ∧
    (∃ C V, rawCrossings (listDiff (([1, 0, -1] : List ℚ).map sign)) PyVal.pyNone
        = .ok C ∧
      validCrossings [1, 0, -1] PyVal.pyNone = .ok V ∧
      (1 - 1) ∉ V ∧ (1 ∈ V ↔ 1 ∈ C)) :=
  ⟨by decide, by decide, by decide, by decide, by decide,
   fnzc_zero_sample_single_candidate [1, 0, -1] 1 PyVal.pyNone (by decide) (by decide)
     (by decide) (by decide) (by decide)⟩

set_option maxRecDepth 200000 in
/-- C8: whenever the deduplicated candidate set V is nonempty,
`find_nearest_zero_crossing` returns a member of V minimising |c - i|,
returning the smaller index when two candidates are equally near; on the §8
buffer, querying index 901 returns 900 and querying 300 returns 304. -/
theorem fnzc_nearest_with_tiebreak (array : List ℚ) (i : ℤ) (s : PyVal)
    (V : List ℕ) (hV : validCrossings array s = .ok V) (hne : V ≠ []) :
    (∃ c : ℕ, find_nearest_zero_crossing array i s = .ok (c : ℤ) ∧ c ∈ V ∧
      ∀ k ∈ V, ((c : ℤ) - i).natAbs ≤ ((k : ℤ) - i).natAbs ∧
        (((k : ℤ) - i).natAbs = ((c : ℤ) - i).natAbs → c ≤ k)) ∧
    find_nearest_zero_crossing fnzcTestBuf 901 PyVal.pyNone = .ok 900 ∧
    find_nearest_zero_crossing fnzcTestBuf 300 PyVal.pyNone = .ok 304 := by
  refine ⟨?_, rfl, rfl⟩
  have hsor : List.Pairwise (· < ·) V := validCrossings_pairwise array s V hV
  have hdne : V.map (fun k : ℕ => ((k : ℤ) - i).natAbs) ≠ [] := by
    intro h
    exact hne (List.map_eq_nil_iff.mp h)
  rcases argminIdx_spec _ hdne with ⟨j, hj, hjlen, hmin, hfirst⟩
  have hjV : j < V.length := by simpa using hjlen
  have hdg : ∀ t, t < V.length →
      (V.map (fun k : ℕ => ((k : ℤ) - i).natAbs)).getD t 0
        = ((V.getD t 0 : ℤ) - i).natAbs := by
    intro t ht
    rw [List.getD_eq_getElem _ _ (by simpa using ht), List.getElem_map,
        List.getD_eq_getElem _ _ ht]
  refine ⟨V.getD j 0, ?_, ?_, ?_⟩
  · rw [find_nearest_zero_crossing, hV]
    dsimp only
    rw [hj]
  · rw [List.getD_eq_getElem _ _ hjV]
    exact List.getElem_mem _
  · intro k hk
    rcases List.mem_iff_getElem.mp hk with ⟨m, hm, rfl⟩
    have hVm : V[m] = V.getD m 0 := (List.getD_eq_getElem _ _ hm).symm
    constructor
    · have h1 := hmin m (by simpa using hm)
      rw [hdg j hjV, hdg m hm] at h1
      rw [hVm]
      exact h1
    · intro heq
      by_contra hcon
      push_neg at hcon
      -- hcon : V[m] < V.getD j 0
      have hmj : m ≠ j := by
        intro h
        subst h
        rw [hVm] at hcon
        exact lt_irrefl _ hcon
      rcases lt_or_gt_of_ne hmj with hlt | hgt
      · have h2 := hfirst m hlt
        rw [hdg j hjV, hdg m hm] at h2
        rw [hVm] at heq
        rw [heq] at h2
        exact lt_irrefl _ h2
      · have h3 := (List.pairwise_iff_getElem.mp hsor) j m hjV hm hgt
        rw [List.getD_eq_getElem _ _ hjV] at hcon
        exact absurd h3 (not_lt.mpr (le_of_lt hcon))

set_option maxRecDepth 200000 in
theorem pyRound_nonneg (q : ℚ) (h : 0 ≤ q) : 0 ≤ pyRound q := by
  have hf : 0 ≤ Int.floor q := Int.floor_nonneg.mpr h
  rw [pyRound]
  split
  · exact hf
  · split
    · omega
    · split
      · exact hf
      · omega

theorem npArange_length (x : ℚ) : (npArange x).length = (Int.ceil x).toNat := by
  rw [npArange, List.length_map, List.length_range]

theorem sin_two_pi_pos {x : ℝ} (h0 : 0 < x) (h1 : x < 1/2) :
    0 < Real.sin (2 * Real.pi * x) := by
  apply Real.sin_pos_of_pos_of_lt_pi
  · positivity
  · nlinarith [Real.pi_pos]

theorem sin_two_pi_neg {x : ℝ} (h0 : 1/2 < x) (h1 : x < 1) :
    Real.sin (2 * Real.pi * x) < 0 := by
  have h2 : 0 < Real.sin (2 * Real.pi * x - Real.pi) := by
    apply Real.sin_pos_of_pos_of_lt_pi
    · nlinarith [Real.pi_pos]
    · nlinarith [Real.pi_pos]
  have h3 : Real.sin (2 * Real.pi * x - Real.pi) = -Real.sin (2 * Real.pi * x) :=
    Real.sin_sub_pi _
  linarith [h3 ▸ h2]

theorem sineWave_getD (frequency amplitude length sample_rate phase : ℚ) (n : ℕ)
    (he : overshootForPhaseShift frequency sample_rate phase = 0)
    (hn : n < (Int.ceil (sample_rate * length)).toNat) :
    (sineWave frequency amplitude length sample_rate phase).getD n 0
      = Real.sin ((n : ℝ) * (frequency : ℝ) * (2 * Real.pi) / (sample_rate : ℝ))
        * (amplitude : ℝ) := by
  have harg : sample_rate * length + ((0:ℤ) : ℚ) = sample_rate * length := by
    push_cast; ring
  have hlen : n < ((sampleCountArray length sample_rate 0).map
      (fun n : ℚ =>
        Real.sin ((n : ℝ) * (frequency : ℝ) * (2 * Real.pi) / (sample_rate : ℝ))
          * (amplitude : ℝ))).length := by
    rw [List.length_map, sampleCountArray, npArange_length, harg]
    exact hn
  simp only [sineWave, he]
  rw [shiftPhase, if_pos (le_refl (0:ℤ)), Int.toNat_zero, List.drop_zero]
  rw [List.getD_eq_getElem _ _ hlen]
  simp only [sampleCountArray, npArange, List.getElem_map, List.getElem_range]
  push_cast
  ring_nf

/-- C4 (code_bug): the raw sawtooth sample is
`fract(index * frequency / DEFAULT_SAMPLE_RATE)`, using the module constant
48000 instead of the `sample_rate` argument: at sample rate 44100 the sample
at index 1 is `fract(440/48000) = 11/1200`, not the claimed
`fract(1 * 440/44100)`. -/
theorem sawtooth_basic_ignores_sample_rate :
    (sawtoothBasic 440 (1/22050) 44100 0).getD 1 0 = 11/1200 ∧
    (11:ℚ)/1200 ≠ (1:ℚ) * 440 / 44100 - (Int.floor ((1:ℚ) * 440 / 44100) : ℚ) ∧
    (sawtoothBasic 440 (1/22050) 44100 0).length = 2 := by
  refine ⟨?_, ?_, ?_⟩ <;> decide

/-- C5 (counterexample): `sine_wave(frequency=1, amplitude=1, length=1/5,
sample_rate=51, phase=0)` has `⌈10.2⌉ = 11` samples, not
`round(sample_rate * length) = round(10.2) = 10`. -/
theorem sine_length_not_round :
    (sineWave 1 1 (1/5) 51 0).length = 11 ∧ pyRound ((51:ℚ) * (1/5)) = 10 := by
  constructor
  · rfl
  · decide

/-- C5 (amended): for positive frequency, length and sample rate and
non-negative phase, the sine buffer has exactly `⌈sample_rate * length⌉`
samples (ceiling, not round): `⌈sample_rate * length⌉ + overshoot` raw samples
are generated and the first `overshoot` are discarded. -/
theorem wave_length_eq_ceil (frequency amplitude length sample_rate phase : ℚ)
    (hf : 0 < frequency) (hr : 0 < sample_rate) (hl : 0 < length) (hp : 0 ≤ phase) :
    (sampleCountArray length sample_rate
        (overshootForPhaseShift frequency sample_rate phase)).length
      = (Int.ceil (sample_rate * length)).toNat
        + (overshootForPhaseShift frequency sample_rate phase).toNat ∧
    (sineWave frequency amplitude length sample_rate phase).length
      = (Int.ceil (sample_rate * length)).toNat := by
  have he : 0 ≤ overshootForPhaseShift frequency sample_rate phase := by
    apply pyRound_nonneg
    positivity
  have hc : 0 < Int.ceil (sample_rate * length) := Int.ceil_pos.mpr (by positivity)
  constructor
  · rw [sampleCountArray, npArange_length, Int.ceil_add_int]
    omega
  · simp only [sineWave]
    rw [shiftPhase, if_pos he, List.length_drop, List.length_map, sampleCountArray,
        npArange_length, Int.ceil_add_int]
    omega

/-- C5 (witness): the amended count at `frequency=2, amplitude=1, length=1,
sample_rate=4, phase=1/2` (overshoot 1: five raw samples, four returned). -/
theorem wave_length_eq_ceil_witness :
    (0:ℚ) < 2 ∧ (0:ℚ) < 4 ∧ (0:ℚ) < 1 ∧ (0:ℚ) ≤ 1/2 ∧
    ((sampleCountArray 1 4 (overshootForPhaseShift 2 4 (1/2))).length
        = (Int.ceil ((4:ℚ) * 1)).toNat + (overshootForPhaseShift 2 4 (1/2)).toNat ∧
      (sineWave 2 1 1 4 (1/2)).length = (Int.ceil ((4:ℚ) * 1)).toNat) :=
  ⟨by norm_num, by norm_num, by norm_num, by norm_num,
   wave_length_eq_ceil 2 1 1 4 (1/2) (by norm_num) (by norm_num) (by norm_num)
     (by norm_num)⟩

/-- C9 (code_bug): at sample rate 24000, frequency 440 and phase 0 the sine
and sawtooth buffers are not phase aligned: across indices 27-28 the sine
goes from positive to negative while the sawtooth goes from negative to
positive, because `_sawtooth_basic` divides by `DEFAULT_SAMPLE_RATE` = 48000
instead of the requested rate and so generates half the requested frequency. -/
theorem phase_alignment_violated_at_nondefault_rate :
    0 < (sineWave 440 1 (1/400) 24000 0).getD 27 0 ∧
    (sineWave 440 1 (1/400) 24000 0).getD 28 0 < 0 ∧
    (sawtooth_wave 440 1 (1/400) 24000 0).getD 27 0 < 0 ∧
    0 < (sawtooth_wave 440 1 (1/400) 24000 0).getD 28 0 := by
  have he : overshootForPhaseShift 440 24000 0 = 0 := by decide
  have h27 := sineWave_getD 440 1 (1/400) 24000 0 27 he (by decide)
  have h28 := sineWave_getD 440 1 (1/400) 24000 0 28 he (by decide)
  refine ⟨?_, ?_, ?_, ?_⟩
  · rw [h27]
    have harg : ((27:ℕ) : ℝ) * ((440:ℚ) : ℝ) * (2 * Real.pi) / ((24000:ℚ) : ℝ)
        = 2 * Real.pi * (99/200) := by
      push_cast; ring
    rw [harg]
    exact mul_pos (sin_two_pi_pos (by norm_num) (by norm_num))
      (by norm_num : (0:ℝ) < ((1:ℚ) : ℝ))
  · rw [h28]
    have harg : ((28:ℕ) : ℝ) * ((440:ℚ) : ℝ) * (2 * Real.pi) / ((24000:ℚ) : ℝ)
        = 2 * Real.pi * (77/150) := by
      push_cast; ring
    rw [harg]
    exact mul_neg_of_neg_of_pos (sin_two_pi_neg (by norm_num) (by norm_num))
      (by norm_num : (0:ℝ) < ((1:ℚ) : ℝ))
  · decide
  · decide

/-- C8 (witness): the nearest-crossing statement at the two-sample buffer
[-1, 1], query index 0, unset filter, candidate set [0]. -/
theorem fnzc_nearest_with_tiebreak_witness :
    validCrossings [-1, 1] PyVal.pyNone = .ok [0] ∧ ([0] : List ℕ) ≠ [] ∧
    ((∃ c : ℕ, find_nearest_zero_crossing [-1, 1] 0 PyVal.pyNone = .ok (c : ℤ) ∧
        c ∈ [0] ∧
        ∀ k ∈ ([0] : List ℕ), ((c : ℤ) - 0).natAbs ≤ ((k : ℤ) - 0).natAbs ∧
          (((k : ℤ) - 0).natAbs = ((c : ℤ) - 0).natAbs → c ≤ k)) ∧
      find_nearest_zero_crossing fnzcTestBuf 901 PyVal.pyNone = .ok 900 ∧
      find_nearest_zero_crossing fnzcTestBuf 300 PyVal.pyNone = .ok 304) :=
  ⟨rfl, by decide,
   fnzc_nearest_with_tiebreak [-1, 1] 0 PyVal.pyNone [0] rfl (by decide)⟩

end Soundgen
